import Mathlib

/-!
Shallow embedding of the wordcat-transformer notebooks.

The repository consists of two exploratory notebooks:
* a sentence-probability notebook defining `get_sentence_prob` and
  `get_directional_prob`, which score a sentence with a masked language
  model by masking token spans in a forward and a backwards direction,
  accumulating log10 probabilities, and returning the geometric mean of
  the two directional pseudo-probabilities;
* a word-category notebook defining `get_top_predictions` (top-k and
  above-threshold token selection from a probability vector) and a
  padding / attention-mask preparation step.

The pretrained model and the tokenizer are opaque oracles; they are
modelled as an explicit record of functions (`BertOracle`).  Real-valued
numerics (softmax, log10, powers) are modelled over `ℝ`; the purely
discrete `get_top_predictions` is modelled computably over `ℚ`.
-/

namespace Wordcat

/-- Special token `[CLS]`, inserted at the front of every tokenized sentence. -/
def BOS_TOKEN : String := "[CLS]"

/-- Special token `[SEP]`, appended at the end of every tokenized sentence. -/
def EOS_TOKEN : String := "[SEP]"

/-- Special token `[MASK]`, substituted for tokens that are hidden from the model. -/
def MASK_TOKEN : String := "[MASK]"

/-- The pretrained model and tokenizer, treated as fixed deterministic oracles
(the spec excludes them as external collaborators).  `model ids` returns, for
each position of the input id sequence, the logit vector of the prediction
head at that position (the source's `model(masked_input)[0][0, i]` is
`(model ids).getD i []`). -/
structure BertOracle where
  tokenize : String → List String
  tok2id : String → Nat
  model : List Nat → List (List ℝ)

/-- Softmax over a logit vector, as applied by `torch.nn.Softmax(dim=0)`:
each component is `exp xᵢ / Σⱼ exp xⱼ`. -/
noncomputable def softmax (v : List ℝ) : List ℝ :=
  v.map (fun x => Real.exp x / (v.map Real.exp).sum)

/-- The backwards-direction masking of `get_directional_prob`:
`current_tokens[1:i+1] = [MASK_TOKEN for j in range(i)]`, i.e. positions
`1 .. i` are replaced by `[MASK]`.  Python slice assignment with a
replacement of length `i` is exactly `take 1 ++ replicate i ++ drop (i+1)`. -/
def maskBackwards (ts : List String) (i : Nat) : List String :=
  ts.take 1 ++ List.replicate i MASK_TOKEN ++ ts.drop (i + 1)

/-- The forward-direction masking of `get_directional_prob`:
`current_tokens[i:-1] = [MASK_TOKEN for j in range(len(tokenized_input) - 1 - i)]`,
i.e. positions `i .. len-2` are replaced by `[MASK]`. -/
def maskForward (ts : List String) (i : Nat) : List String :=
  ts.take i ++ List.replicate (ts.length - 1 - i) MASK_TOKEN ++ ts.drop (ts.length - 1)

/-- The direction dispatch of `get_directional_prob`: `backwards` and
`forward` produce a masked copy of the token list; any other direction
string hits the `else` branch, which prints an error and calls `exit()`
before any model evaluation — modelled as `none`. -/
def maskTokens (ts : List String) (i : Nat) (direction : String) : Option (List String) :=
  if direction = "backwards" then some (maskBackwards ts i)
  else if direction = "forward" then some (maskForward ts i)
  else none

/-- The tail of `get_directional_prob` after masking: convert the masked
tokens to ids, run the model once, and softmax the prediction-head output
at position `i` (`probs = sm(predictions[0, i])`). -/
noncomputable def dirModelProbs (B : BertOracle) (current_tokens : List String) (i : Nat) :
    List ℝ :=
  softmax ((B.model (current_tokens.map B.tok2id)).getD i [])

/-- `get_directional_prob(sm, tokenized_input, i, direction)` from the
sentence-probability notebook: mask a directional span of a copy of the
token list, run the model, and return the softmaxed probability vector at
position `i`; `none` models the `exit()` branch for invalid directions. -/
noncomputable def get_directional_prob (B : BertOracle) (tokenized_input : List String)
    (i : Nat) (direction : String) : Option (List ℝ) :=
  (maskTokens tokenized_input i direction).map (fun ct => dirModelProbs B ct i)

/-- Number of model (and softmax) evaluations performed by a single call to
`get_directional_prob`: the source calls `model(masked_input)` exactly once,
textually after the direction dispatch, so a valid direction costs one
evaluation and the `exit()` branch costs none. -/
def modelEvalsDir (ts : List String) (i : Nat) (direction : String) : Nat :=
  if (maskTokens ts i direction).isSome then 1 else 0

/-- The preprocessing of `get_sentence_prob`: insert `[CLS]` at the front
unless already present, then append `[SEP]` unless already present (the
second test runs on the already-BOS-adjusted list, as in the source). -/
def preprocess (tokenized : List String) : List String :=
  let t1 := if tokenized.headD "" ≠ BOS_TOKEN then BOS_TOKEN :: tokenized else tokenized
  if t1.getLastD "" ≠ EOS_TOKEN then t1 ++ [EOS_TOKEN] else t1

/-- The index list of the accumulation loop of `get_sentence_prob`:
`for i in range(1, len(tokenized_input) - 1)` — positions `1 .. n-2`. -/
def interiorPositions (n : Nat) : List Nat :=
  List.range' 1 (n - 2)

/-- The per-position probability used by the accumulation loop: the entry of
the directional probability vector at the original token's vocabulary id
(`probs_forward[ids_input[i]]`). -/
noncomputable def tokenProb (B : BertOracle) (ti : List String) (ids : List Nat)
    (i : Nat) (direction : String) : ℝ :=
  ((get_directional_prob B ti i direction).getD []).getD (ids.getD i 0) 0

/-- The accumulation loop of `get_sentence_prob`, threading the pair
`(log_sent_prob_forward, log_sent_prob_backwards)` through the interior
positions; each iteration adds `np.log10` of the forward and of the
backwards per-token probability. -/
noncomputable def sentLoop (B : BertOracle) (ti : List String) (ids : List Nat) : ℝ × ℝ :=
  (interiorPositions ti.length).foldl
    (fun acc i =>
      (acc.1 + Real.logb 10 (tokenProb B ti ids i "forward"),
       acc.2 + Real.logb 10 (tokenProb B ti ids i "backwards")))
    (0, 0)

/-- `get_sentence_prob(sentence)` from the sentence-probability notebook:
tokenize, add special tokens, accumulate directional log10 probabilities
over the interior positions, average the two totals, and return
`np.power(10, ...)` of the average. -/
noncomputable def get_sentence_prob (B : BertOracle) (sentence : String) : ℝ :=
  let tokenized_input := preprocess (B.tokenize sentence)
  let ids_input := tokenized_input.map B.tok2id
  let acc := sentLoop B tokenized_input ids_input
  let log_geom_mean_sent_prob := 0.5 * (acc.1 + acc.2)
  (10 : ℝ) ^ log_geom_mean_sent_prob

/-- Total number of model evaluations performed by the accumulation loop of
`get_sentence_prob`: each iteration calls `get_directional_prob` once with
direction `forward` and once with `backwards`. -/
def modelEvalsSentence (ti : List String) : Nat :=
  ((interiorPositions ti.length).map
    (fun i => modelEvalsDir ti i "forward" + modelEvalsDir ti i "backwards")).sum

/-! ### Top-k / threshold selection (`get_top_predictions`, word-category notebook)

`get_top_predictions` only compares and selects probabilities, so it is
modelled computably over `ℚ`.  `np.argpartition(probs, -k)[-k:]` selects a
set of `k` indices of largest value and the subsequent
`np.argsort(-probs[top_indexes])` orders them by decreasing probability;
together they produce the `k` indices of largest probability in
non-increasing order (ties resolved by an unspecified internal order,
determinized here by smaller index first).  `np.where(probs > thres)`
returns, in increasing index order, exactly the indices whose probability
strictly exceeds the threshold. -/

/-- Ordering on indices used by the argpartition/argsort pair: larger
probability first, ties broken by smaller index. -/
def topOrder (probs : List ℚ) (a b : Nat) : Prop :=
  probs.getD b 0 < probs.getD a 0 ∨ (probs.getD a 0 = probs.getD b 0 ∧ a ≤ b)

instance (probs : List ℚ) : DecidableRel (topOrder probs) := fun a b => by
  unfold topOrder; infer_instance

instance (probs : List ℚ) : IsTotal Nat (topOrder probs) where
  total a b := by
    unfold topOrder
    rcases lt_trichotomy (probs.getD a 0) (probs.getD b 0) with h | h | h
    · exact Or.inr (Or.inl h)
    · rcases Nat.le_total a b with hab | hab
      · exact Or.inl (Or.inr ⟨h, hab⟩)
      · exact Or.inr (Or.inr ⟨h.symm, hab⟩)
    · exact Or.inl (Or.inl h)

instance (probs : List ℚ) : IsTrans Nat (topOrder probs) where
  trans a b c hab hbc := by
    unfold topOrder at *
    rcases hab with h1 | ⟨h1, h1'⟩ <;> rcases hbc with h2 | ⟨h2, h2'⟩
    · exact Or.inl (h2.trans h1)
    · exact Or.inl (h2 ▸ h1)
    · exact Or.inl (lt_of_lt_of_le h2 (le_of_eq h1.symm))
    · exact Or.inr ⟨h1.trans h2, h1'.trans h2'⟩

/-- All indices of the probability vector ordered by `topOrder`: the
deterministic rendering of `argpartition` + `argsort` composed. -/
def sortedIdx (probs : List ℚ) : List Nat :=
  List.insertionSort (topOrder probs) (List.range probs.length)

/-- `get_top_predictions(probs, k, thres)` from the word-category notebook:
first component the `k` top-probability tokens in non-increasing order of
probability, second component the tokens whose probability strictly exceeds
`thres`, in index order (`np.where`).  `id2tok` is the tokenizer's
`convert_ids_to_tokens`. -/
def get_top_predictions (id2tok : Nat → String) (probs : List ℚ) (k : Nat) (thres : ℚ) :
    List String × List String :=
  (((sortedIdx probs).take k).map id2tok,
   ((List.range probs.length).filter (fun j => decide (thres < probs.getD j 0))).map id2tok)

/-! ### Padding and attention mask (word-category notebook) -/

/-- `max_len = max(len(i) for i in input_ids)` (Python `max` over the
row lengths; the embedding returns 0 on an empty list, where the source
would raise). -/
def max_len (input_ids : List (List Nat)) : Nat :=
  (input_ids.map List.length).foldr max 0

/-- One row of `padded_input`: `i + [0] * (max_len - len(i))`. -/
def pad_row (row : List Nat) (m : Nat) : List Nat :=
  row ++ List.replicate (m - row.length) 0

/-- `padded_input = np.array([i + [0]*(max_len - len(i)) for i in input_ids])`. -/
def padded_input (input_ids : List (List Nat)) : List (List Nat) :=
  input_ids.map (fun r => pad_row r (max_len input_ids))

/-- `attention_mask = np.where(padded_input != 0, 1, 0)`: elementwise 1 where
the padded id is nonzero, 0 elsewhere. -/
def attention_mask (padded : List (List Nat)) : List (List Nat) :=
  padded.map (fun r => r.map (fun x => if x ≠ 0 then 1 else 0))

/-! ### Heap model of Python list aliasing for `get_directional_prob`

The caller of `get_directional_prob` passes its token list by reference;
the function first takes a copy (`current_tokens = tokenized_input[:]`)
and performs the slice-assignment masking on the copy only.  To state
that the caller's list is left unmodified, Python lists are modelled as
references into a heap of lists. -/

/-- A heap of Python list objects; a reference is an index into the heap. -/
structure PyState where
  heap : List (List String)

/-- Allocate a fresh list object holding `v`; returns the new state and the
fresh reference. -/
def alloc (σ : PyState) (v : List String) : PyState × Nat :=
  (⟨σ.heap ++ [v]⟩, σ.heap.length)

/-- Read the list object a reference points to. -/
def readRef (σ : PyState) (r : Nat) : List String :=
  σ.heap.getD r []

/-- Overwrite the list object a reference points to (slice assignment). -/
def writeRef (σ : PyState) (r : Nat) (v : List String) : PyState :=
  ⟨σ.heap.set r v⟩

/-- `get_directional_prob` with explicit reference semantics: the caller
passes a reference `tokRef` to its token list; `current_tokens` is a fresh
copy, the slice-assignment masking mutates only the copy, and the invalid
direction branch exits (`none`) before touching the model.  Returns the
result together with the final heap. -/
noncomputable def get_directional_prob_st (B : BertOracle) (σ : PyState)
    (tokRef : Nat) (i : Nat) (direction : String) : Option (List ℝ) × PyState :=
  let ti := readRef σ tokRef
  let a := alloc σ ti
  let σ1 := a.1
  let ctRef := a.2
  if direction = "backwards" then
    let σ2 := writeRef σ1 ctRef (maskBackwards (readRef σ1 ctRef) i)
    (some (dirModelProbs B (readRef σ2 ctRef) i), σ2)
  else if direction = "forward" then
    let σ2 := writeRef σ1 ctRef (maskForward (readRef σ1 ctRef) i)
    (some (dirModelProbs B (readRef σ2 ctRef) i), σ2)
  else (none, σ1)

/-! ### Spec-side definition for the single-token-masking claim -/

/-- Masking exactly one token, as the glossary sentence describes
("masking one token at a time"): the token at position `i` is replaced by
`[MASK]` and all other tokens are left intact.  This is the spec's wording,
to be compared against the source's span masking `maskTokens`. -/
def maskSingleSpec (ts : List String) (i : Nat) : List String :=
  ts.set i MASK_TOKEN

/-- A trivial concrete oracle used to witness oracle-quantified theorems. -/
noncomputable def trivialOracle : BertOracle where
  tokenize := fun _ => ["hello"]
  tok2id := fun _ => 0
  model := fun _ => [[0], [0], [0], [0]]

/-! ## Helper lemmas -/

/-- A fold that adds `f i` to the first and `g i` to the second component is
the pair of sums. -/
theorem foldl_pair_add (f g : Nat → ℝ) (l : List Nat) :
    ∀ a b : ℝ, l.foldl (fun acc i => (acc.1 + f i, acc.2 + g i)) (a, b)
      = (a + (l.map f).sum, b + (l.map g).sum) := by
  induction l with
  | nil => simp
  | cons x xs ih =>
      intro a b
      simp only [List.foldl_cons, List.map_cons, List.sum_cons, ih, Prod.mk.injEq]
      constructor <;> ring

/-- The square root of a product of powers of 10 is 10 to the average
exponent. -/
theorem sqrt_rpow_mean (a b : ℝ) :
    Real.sqrt ((10 : ℝ) ^ a * (10 : ℝ) ^ b) = (10 : ℝ) ^ (0.5 * (a + b)) := by
  rw [← Real.rpow_add (by norm_num : (0:ℝ) < 10), Real.sqrt_eq_rpow,
    ← Real.rpow_mul (by norm_num : (0:ℝ) ≤ 10)]
  ring_nf

/-- Every component of a softmax output is strictly positive. -/
theorem softmax_pos (v : List ℝ) : ∀ x ∈ softmax v, 0 < x := by
  intro x hx
  unfold softmax at hx
  rcases List.mem_map.1 hx with ⟨a, ha, rfl⟩
  apply div_pos (Real.exp_pos a)
  apply List.sum_pos
  · intro y hy
    rcases List.mem_map.1 hy with ⟨c, _, rfl⟩
    exact Real.exp_pos c
  · exact fun h => List.ne_nil_of_mem ha (List.map_eq_nil_iff.1 h)

/-- The softmax of a vector has the same length as the vector. -/
theorem softmax_length (v : List ℝ) : (softmax v).length = v.length := by
  simp [softmax]

/-- The sum of exponentials of a nonempty vector is strictly positive
(the softmax denominator is never zero). -/
theorem exp_sum_pos (w : List ℝ) (hw : w ≠ []) : 0 < (w.map Real.exp).sum := by
  apply List.sum_pos
  · intro y hy
    rcases List.mem_map.1 hy with ⟨c, _, rfl⟩
    exact Real.exp_pos c
  · exact fun h => hw (List.map_eq_nil_iff.1 h)

/-- An in-bounds `getD` entry of a softmax output is positive and is a
component of that output. -/
theorem softmax_getD_pos (w : List ℝ) (j : Nat) (hj : j < w.length) :
    0 < (softmax w).getD j 0 ∧ (softmax w).getD j 0 ∈ softmax w := by
  have hj' : j < (softmax w).length := by rw [softmax_length]; exact hj
  rw [List.getD_eq_getElem (softmax w) 0 hj']
  refine ⟨softmax_pos w _ (List.getElem_mem hj'), List.getElem_mem hj'⟩

/-- Pointwise description of the backwards masking: position 0 is kept,
positions `1 .. i` are `[MASK]`, positions beyond `i` are kept. -/
theorem maskBackwards_getD (ts : List String) (i j : Nat) (hj : j < ts.length) :
    (maskBackwards ts i).getD j ""
      = if 1 ≤ j ∧ j ≤ i then MASK_TOKEN else ts.getD j "" := by
  have hA : (ts.take 1).length = 1 := by rw [List.length_take]; omega
  rw [List.getD_eq_getElem?_getD, List.getD_eq_getElem?_getD]
  unfold maskBackwards
  rw [List.getElem?_append, List.getElem?_append]
  simp only [List.length_append, hA, List.length_replicate]
  rcases Nat.lt_or_ge j 1 with h1 | h1
  · have hj0 : j = 0 := by omega
    subst hj0
    rw [if_pos (by omega : (0:Nat) < 1 + i), if_pos (by omega : (0:Nat) < 1),
      List.getElem?_take_of_lt (by omega : (0:Nat) < 1), if_neg (by omega)]
  · rcases Nat.lt_or_ge j (1 + i) with h2 | h2
    · rw [if_pos h2, if_neg (by omega), List.getElem?_replicate, if_pos (by omega),
        if_pos (by omega)]
      rfl
    · rw [if_neg (by omega), List.getElem?_drop, if_neg (by omega)]
      have harith : i + 1 + (j - (1 + i)) = j := by omega
      rw [harith]

/-- Pointwise description of the forward masking: positions `0 .. i-1` are
kept, positions `i .. n-2` are `[MASK]`, the final position is kept. -/
theorem maskForward_getD (ts : List String) (i j : Nat) (hj : j < ts.length)
    (hi : i ≤ ts.length - 2) (hlen : 2 ≤ ts.length) :
    (maskForward ts i).getD j ""
      = if i ≤ j ∧ j ≤ ts.length - 2 then MASK_TOKEN else ts.getD j "" := by
  have hA : (ts.take i).length = i := by rw [List.length_take]; omega
  rw [List.getD_eq_getElem?_getD, List.getD_eq_getElem?_getD]
  unfold maskForward
  rw [List.getElem?_append, List.getElem?_append]
  simp only [List.length_append, hA, List.length_replicate]
  rcases Nat.lt_or_ge j i with h1 | h1
  · rw [if_pos (by omega), if_pos h1, List.getElem?_take_of_lt h1, if_neg (by omega)]
  · rcases Nat.lt_or_ge j (ts.length - 1) with h2 | h2
    · rw [if_pos (by omega), if_neg (by omega), List.getElem?_replicate,
        if_pos (by omega), if_pos (by omega)]
      rfl
    · rw [if_neg (by omega), List.getElem?_drop, if_neg (by omega)]
      have harith : ts.length - 1 + (j - (i + (ts.length - 1 - i))) = j := by omega
      rw [harith]

/-! ## Claims -/

/-- C1: for every input sentence, `get_sentence_prob` returns 10 raised to
`0.5 * (L_f + L_b)` where `L_f`, `L_b` are the accumulated forward and
backwards log10 probabilities of the interior tokens; equivalently it is the
geometric mean `sqrt(P_f * P_b)` of the two directional pseudo-probabilities
`P_f = 10 ^ L_f` and `P_b = 10 ^ L_b`. -/
theorem get_sentence_prob_geometric_mean (B : BertOracle) (s : String) :
    get_sentence_prob B s
        = (10 : ℝ) ^ (0.5 * ((sentLoop B (preprocess (B.tokenize s))
              ((preprocess (B.tokenize s)).map B.tok2id)).1
            + (sentLoop B (preprocess (B.tokenize s))
              ((preprocess (B.tokenize s)).map B.tok2id)).2))
      ∧ get_sentence_prob B s
        = Real.sqrt ((10 : ℝ) ^ (sentLoop B (preprocess (B.tokenize s))
              ((preprocess (B.tokenize s)).map B.tok2id)).1
            * (10 : ℝ) ^ (sentLoop B (preprocess (B.tokenize s))
              ((preprocess (B.tokenize s)).map B.tok2id)).2) :=
  ⟨rfl, (sqrt_rpow_mean _ _).symm⟩

/-- C4: for each direction, the accumulated sentence log-probability computed
by the loop of `get_sentence_prob` equals the sum, over the interior token
positions, of the log10 of the model's probability for the original token at
that position. -/
theorem sentLoop_eq_sum_log10 (B : BertOracle) (ti : List String) (ids : List Nat) :
    sentLoop B ti ids
      = (((interiorPositions ti.length).map
            (fun i => Real.logb 10 (tokenProb B ti ids i "forward"))).sum,
         ((interiorPositions ti.length).map
            (fun i => Real.logb 10 (tokenProb B ti ids i "backwards"))).sum) := by
  unfold sentLoop
  rw [foldl_pair_add]
  simp

/-- C5: the probability used for the token at position `i` is obtained by
applying softmax to the model prediction head's output vector at position `i`
of the masked input, and indexing the resulting probability vector with that
token's vocabulary id — in both directions. -/
theorem tokenProb_eq_softmax_at_id (B : BertOracle) (ti : List String) (ids : List Nat)
    (i : Nat) :
    tokenProb B ti ids i "forward"
        = (softmax ((B.model ((maskForward ti i).map B.tok2id)).getD i
            [])).getD (ids.getD i 0) 0
      ∧ tokenProb B ti ids i "backwards"
        = (softmax ((B.model ((maskBackwards ti i).map B.tok2id)).getD i
            [])).getD (ids.getD i 0) 0 :=
  ⟨rfl, rfl⟩

/-- C7: treating model and tokenizer as fixed deterministic oracles,
`get_sentence_prob` is deterministic — two runs on the same input sentence
return equal sentence probabilities. -/
theorem get_sentence_prob_deterministic (B : BertOracle) (s1 s2 : String)
    (h : s1 = s2) : get_sentence_prob B s1 = get_sentence_prob B s2 := by
  rw [h]

/-- Witness for C7 at a concrete oracle and sentence. -/
theorem get_sentence_prob_deterministic_witness :
    "ok" = "ok"
      ∧ get_sentence_prob trivialOracle "ok" = get_sentence_prob trivialOracle "ok" :=
  ⟨rfl, get_sentence_prob_deterministic trivialOracle "ok" "ok" rfl⟩

/-- C6: every value passed to `log10` by the accumulation loop is a component
of a softmax output, hence strictly positive under exact real arithmetic, and
the softmax denominator (a sum of exponentials) is strictly positive — so
neither log-of-zero nor division by zero can occur, provided the indexed
vocabulary id is within the model's output vector. -/
theorem log10_arg_pos (B : BertOracle) (ti : List String) (ids : List Nat) (i : Nat)
    (direction : String)
    (hdir : direction = "forward" ∨ direction = "backwards")
    (hidx : ids.getD i 0
      < ((B.model (((maskTokens ti i direction).getD []).map B.tok2id)).getD i []).length) :
    0 < tokenProb B ti ids i direction
      ∧ tokenProb B ti ids i direction
          ∈ softmax ((B.model (((maskTokens ti i direction).getD []).map B.tok2id)).getD i [])
      ∧ 0 < ((((B.model (((maskTokens ti i direction).getD []).map B.tok2id)).getD i
            []).map Real.exp).sum) := by
  have hne : ((B.model (((maskTokens ti i direction).getD []).map B.tok2id)).getD i [])
      ≠ [] := by
    intro h
    rw [h] at hidx
    simp at hidx
  rcases hdir with h | h <;> subst h <;>
    exact ⟨(softmax_getD_pos _ _ hidx).1, (softmax_getD_pos _ _ hidx).2, exp_sum_pos _ hne⟩

/-- Witness for C6 at a concrete oracle, sentence and in-bounds index. -/
theorem log10_arg_pos_witness :
    (("forward" : String) = "forward" ∨ ("forward" : String) = "backwards")
    ∧ (0 < tokenProb trivialOracle ["[CLS]", "a", "[SEP]"] [0, 0, 0] 1 "forward"
      ∧ tokenProb trivialOracle ["[CLS]", "a", "[SEP]"] [0, 0, 0] 1 "forward"
          ∈ softmax ((trivialOracle.model (((maskTokens ["[CLS]", "a", "[SEP]"] 1
              "forward").getD []).map trivialOracle.tok2id)).getD 1 [])
      ∧ 0 < ((((trivialOracle.model (((maskTokens ["[CLS]", "a", "[SEP]"] 1
            "forward").getD []).map trivialOracle.tok2id)).getD 1 []).map Real.exp).sum)) :=
  ⟨Or.inl rfl,
   log10_arg_pos trivialOracle ["[CLS]", "a", "[SEP]"] [0, 0, 0] 1 "forward"
     (Or.inl rfl) (by decide)⟩

/-- C3: the accumulation loop of `get_sentence_prob` visits exactly the
interior positions `1 .. n-2` of the tokenized input — the first and the last
position are never visited — and performs exactly two model/softmax
evaluations per visited position, for a total of `2 * (n - 2)`. -/
theorem interior_positions_and_eval_count (ti : List String) :
    (∀ i, i ∈ interiorPositions ti.length ↔ 1 ≤ i ∧ i ≤ ti.length - 2)
    ∧ 0 ∉ interiorPositions ti.length
    ∧ ti.length - 1 ∉ interiorPositions ti.length
    ∧ (∀ i ∈ interiorPositions ti.length,
        ((maskTokens ti i "forward").getD []).getD 0 "" = ti.getD 0 ""
        ∧ ((maskTokens ti i "backwards").getD []).getD 0 "" = ti.getD 0 ""
        ∧ ((maskTokens ti i "forward").getD []).getD (ti.length - 1) ""
            = ti.getD (ti.length - 1) ""
        ∧ ((maskTokens ti i "backwards").getD []).getD (ti.length - 1) ""
            = ti.getD (ti.length - 1) "")
    ∧ (∀ i, modelEvalsDir ti i "forward" + modelEvalsDir ti i "backwards" = 2)
    ∧ modelEvalsSentence ti = 2 * (ti.length - 2) := by
  have hmem : ∀ i, i ∈ interiorPositions ti.length ↔ 1 ≤ i ∧ i ≤ ti.length - 2 := by
    intro i
    unfold interiorPositions
    rw [List.mem_range'_1]
    omega
  refine ⟨hmem, ?_, ?_, ?_, fun i => rfl, ?_⟩
  · intro h0
    rw [hmem] at h0
    omega
  · intro hn
    rw [hmem] at hn
    omega
  · intro i hi
    rw [hmem] at hi
    have hn3 : 3 ≤ ti.length := by omega
    have h0lt : 0 < ti.length := by omega
    have hnlt : ti.length - 1 < ti.length := by omega
    have hmf : maskTokens ti i "forward" = some (maskForward ti i) := rfl
    have hmb : maskTokens ti i "backwards" = some (maskBackwards ti i) := rfl
    rw [hmf, hmb]
    simp only [Option.getD_some]
    rw [maskForward_getD ti i 0 h0lt hi.2 (by omega),
      maskBackwards_getD ti i 0 h0lt,
      maskForward_getD ti i (ti.length - 1) hnlt hi.2 (by omega),
      maskBackwards_getD ti i (ti.length - 1) hnlt,
      if_neg (by omega), if_neg (by omega), if_neg (by omega), if_neg (by omega)]
    exact ⟨rfl, rfl, rfl, rfl⟩
  · unfold modelEvalsSentence
    have hconst : (interiorPositions ti.length).map
        (fun i => modelEvalsDir ti i "forward" + modelEvalsDir ti i "backwards")
        = (interiorPositions ti.length).map (fun _ => 2) :=
      List.map_congr_left (fun i _ => rfl)
    rw [hconst, List.map_const', List.sum_replicate, smul_eq_mul]
    unfold interiorPositions
    rw [List.length_range']
    ring

/-- C2 counterexample: at interior position 1 of the 5-token input
`[CLS] a b c [SEP]`, the forward direction shows the model an input with the
three tokens at positions 1, 2 and 3 masked — not the sentence with exactly
the single token at position 1 replaced by `[MASK]`. -/
theorem single_token_masking_counterexample :
    maskTokens ["[CLS]", "a", "b", "c", "[SEP]"] 1 "forward"
        = some ["[CLS]", "[MASK]", "[MASK]", "[MASK]", "[SEP]"]
      ∧ maskSingleSpec ["[CLS]", "a", "b", "c", "[SEP]"] 1
        = ["[CLS]", "[MASK]", "b", "c", "[SEP]"]
      ∧ maskTokens ["[CLS]", "a", "b", "c", "[SEP]"] 1 "forward"
        ≠ some (maskSingleSpec ["[CLS]", "a", "b", "c", "[SEP]"] 1) := by
  refine ⟨?_, ?_, ?_⟩ <;> decide

/-- C2 (amended): for each interior position `i`, the model is shown the
tokenized sentence with a contiguous span of tokens replaced by `[MASK]` —
in the forward direction the positions `i` through `n-2`, in the backwards
direction the positions `1` through `i`, all other tokens left intact — so
the token at position `i` is always among the masked tokens, and its
probability is read from the softmaxed model prediction at position `i`,
indexed by the original token's vocabulary id. -/
theorem mask_span_amended (B : BertOracle) (ti : List String) (ids : List Nat) (i : Nat)
    (h1 : 1 ≤ i) (h2 : i ≤ ti.length - 2) (hlen : 2 ≤ ti.length) :
    (∀ j, j < ti.length →
      ((maskTokens ti i "forward").getD []).getD j ""
        = if i ≤ j ∧ j ≤ ti.length - 2 then MASK_TOKEN else ti.getD j "")
    ∧ (∀ j, j < ti.length →
      ((maskTokens ti i "backwards").getD []).getD j ""
        = if 1 ≤ j ∧ j ≤ i then MASK_TOKEN else ti.getD j "")
    ∧ ((maskTokens ti i "forward").getD []).getD i "" = MASK_TOKEN
    ∧ ((maskTokens ti i "backwards").getD []).getD i "" = MASK_TOKEN
    ∧ get_directional_prob B ti i "forward"
        = some (softmax ((B.model ((maskForward ti i).map B.tok2id)).getD i []))
    ∧ tokenProb B ti ids i "forward"
        = (softmax ((B.model ((maskForward ti i).map B.tok2id)).getD i
            [])).getD (ids.getD i 0) 0 := by
  have hf : ∀ j, j < ti.length →
      ((maskTokens ti i "forward").getD []).getD j ""
        = if i ≤ j ∧ j ≤ ti.length - 2 then MASK_TOKEN else ti.getD j "" := by
    intro j hj
    exact maskForward_getD ti i j hj h2 hlen
  have hb : ∀ j, j < ti.length →
      ((maskTokens ti i "backwards").getD []).getD j ""
        = if 1 ≤ j ∧ j ≤ i then MASK_TOKEN else ti.getD j "" := by
    intro j hj
    exact maskBackwards_getD ti i j hj
  have hi_lt : i < ti.length := by omega
  refine ⟨hf, hb, ?_, ?_, rfl, rfl⟩
  · rw [hf i hi_lt, if_pos ⟨le_refl i, h2⟩]
  · rw [hb i hi_lt, if_pos ⟨h1, le_refl i⟩]

/-- Witness for the amended C2 at a concrete input and position. -/
theorem mask_span_amended_witness :
    (1 ≤ 1 ∧ 1 ≤ (["[CLS]", "a", "b", "[SEP]"] : List String).length - 2
        ∧ 2 ≤ (["[CLS]", "a", "b", "[SEP]"] : List String).length)
    ∧ ((∀ j, j < (["[CLS]", "a", "b", "[SEP]"] : List String).length →
        ((maskTokens ["[CLS]", "a", "b", "[SEP]"] 1 "forward").getD []).getD j ""
          = if 1 ≤ j ∧ j ≤ (["[CLS]", "a", "b", "[SEP]"] : List String).length - 2
            then MASK_TOKEN else (["[CLS]", "a", "b", "[SEP]"] : List String).getD j "")
      ∧ (∀ j, j < (["[CLS]", "a", "b", "[SEP]"] : List String).length →
        ((maskTokens ["[CLS]", "a", "b", "[SEP]"] 1 "backwards").getD []).getD j ""
          = if 1 ≤ j ∧ j ≤ 1
            then MASK_TOKEN else (["[CLS]", "a", "b", "[SEP]"] : List String).getD j "")
      ∧ ((maskTokens ["[CLS]", "a", "b", "[SEP]"] 1 "forward").getD []).getD 1 ""
          = MASK_TOKEN
      ∧ ((maskTokens ["[CLS]", "a", "b", "[SEP]"] 1 "backwards").getD []).getD 1 ""
          = MASK_TOKEN
      ∧ get_directional_prob trivialOracle ["[CLS]", "a", "b", "[SEP]"] 1 "forward"
          = some (softmax ((trivialOracle.model ((maskForward ["[CLS]", "a", "b", "[SEP]"]
              1).map trivialOracle.tok2id)).getD 1 []))
      ∧ tokenProb trivialOracle ["[CLS]", "a", "b", "[SEP]"] [0, 0, 0, 0] 1 "forward"
          = (softmax ((trivialOracle.model ((maskForward ["[CLS]", "a", "b", "[SEP]"]
              1).map trivialOracle.tok2id)).getD 1 [])).getD
              ((([0, 0, 0, 0] : List Nat)).getD 1 0) 0) :=
  ⟨⟨by decide, by decide, by decide⟩,
   mask_span_amended trivialOracle ["[CLS]", "a", "b", "[SEP]"] [0, 0, 0, 0] 1
     (by decide) (by decide) (by decide)⟩

/-- C8: for every probability vector with at least `k` entries,
`get_top_predictions` returns as its first component the tokens of a
`k`-element duplicate-free index selection, listed in non-increasing order of
probability, whose members' probabilities dominate every non-selected index —
i.e. the `k` tokens with the highest probabilities in non-increasing order —
and as its second component exactly the tokens whose probability is strictly
greater than `thres`. -/
theorem get_top_predictions_spec (id2tok : Nat → String) (probs : List ℚ) (k : Nat)
    (thres : ℚ) (hk : k ≤ probs.length) :
    ((get_top_predictions id2tok probs k thres).1
        = ((sortedIdx probs).take k).map id2tok)
    ∧ ((sortedIdx probs).take k).length = k
    ∧ (((sortedIdx probs).take k).map (fun a => probs.getD a 0)).Sorted (· ≥ ·)
    ∧ (∀ a ∈ (sortedIdx probs).take k, a < probs.length)
    ∧ ((sortedIdx probs).take k).Nodup
    ∧ (∀ b, b < probs.length → b ∉ (sortedIdx probs).take k →
        ∀ a ∈ (sortedIdx probs).take k, probs.getD b 0 ≤ probs.getD a 0)
    ∧ (∀ t, t ∈ (get_top_predictions id2tok probs k thres).2 ↔
        ∃ j, j < probs.length ∧ thres < probs.getD j 0 ∧ id2tok j = t) := by
  have hperm : List.Perm (sortedIdx probs) (List.range probs.length) :=
    List.perm_insertionSort (topOrder probs) (List.range probs.length)
  have hsorted : (sortedIdx probs).Sorted (topOrder probs) :=
    List.sorted_insertionSort (topOrder probs) (List.range probs.length)
  have hmem_range : ∀ a ∈ sortedIdx probs, a < probs.length := by
    intro a ha
    exact List.mem_range.1 (hperm.mem_iff.1 ha)
  have hge : ∀ a b, topOrder probs a b → probs.getD b 0 ≤ probs.getD a 0 := by
    intro a b hab
    rcases hab with h | ⟨h, _⟩
    · exact le_of_lt h
    · exact le_of_eq h.symm
  refine ⟨rfl, ?_, ?_, ?_, ?_, ?_, ?_⟩
  · rw [List.length_take, hperm.length_eq, List.length_range]
    exact min_eq_left hk
  · exact List.Pairwise.map _ (fun a b hab => hge a b hab)
      (List.Pairwise.sublist (List.take_sublist k (sortedIdx probs)) hsorted)
  · exact fun a ha => hmem_range a (List.mem_of_mem_take ha)
  · exact ((hperm.nodup_iff).2 (List.nodup_range _)).sublist
      (List.take_sublist k (sortedIdx probs))
  · intro b hb hbtake a ha
    have hbmem : b ∈ sortedIdx probs := hperm.mem_iff.2 (List.mem_range.2 hb)
    have hbdrop : b ∈ (sortedIdx probs).drop k := by
      rcases (List.mem_append.1
          ((List.take_append_drop k (sortedIdx probs)).symm ▸ hbmem)) with h | h
      · exact absurd h hbtake
      · exact h
    exact hge a b (hsorted.rel_of_mem_take_of_mem_drop ha hbdrop)
  · intro t
    simp only [get_top_predictions, List.mem_map, List.mem_filter, List.mem_range,
      decide_eq_true_eq]
    constructor
    · rintro ⟨j, ⟨hj, hth⟩, rfl⟩
      exact ⟨j, hj, hth, rfl⟩
    · rintro ⟨j, hj, hth, rfl⟩
      exact ⟨j, ⟨hj, hth⟩, rfl⟩

/-- Witness for C8 at a concrete probability vector. -/
theorem get_top_predictions_spec_witness :
    2 ≤ ([1/2, 3/4, 1/4] : List ℚ).length
    ∧ (((get_top_predictions (fun _ => "w") [1/2, 3/4, 1/4] 2 (1/3)).1
          = ((sortedIdx [1/2, 3/4, 1/4]).take 2).map (fun _ => "w"))
      ∧ ((sortedIdx [1/2, 3/4, 1/4]).take 2).length = 2
      ∧ (((sortedIdx [1/2, 3/4, 1/4]).take 2).map
          (fun a => ([1/2, 3/4, 1/4] : List ℚ).getD a 0)).Sorted (· ≥ ·)
      ∧ (∀ a ∈ (sortedIdx [1/2, 3/4, 1/4]).take 2, a < ([1/2, 3/4, 1/4] : List ℚ).length)
      ∧ ((sortedIdx [1/2, 3/4, 1/4]).take 2).Nodup
      ∧ (∀ b, b < ([1/2, 3/4, 1/4] : List ℚ).length →
          b ∉ (sortedIdx [1/2, 3/4, 1/4]).take 2 →
          ∀ a ∈ (sortedIdx [1/2, 3/4, 1/4]).take 2,
            ([1/2, 3/4, 1/4] : List ℚ).getD b 0 ≤ ([1/2, 3/4, 1/4] : List ℚ).getD a 0)
      ∧ (∀ t, t ∈ (get_top_predictions (fun _ => "w") [1/2, 3/4, 1/4] 2 (1/3)).2 ↔
          ∃ j, j < ([1/2, 3/4, 1/4] : List ℚ).length
            ∧ (1/3 : ℚ) < ([1/2, 3/4, 1/4] : List ℚ).getD j 0 ∧ "w" = t)) :=
  ⟨by decide, get_top_predictions_spec (fun _ => "w") [1/2, 3/4, 1/4] 2 (1/3) (by decide)⟩

/-- Every row of the input is at most `max_len` long. -/
theorem length_le_max_len (input_ids : List (List Nat)) (row : List Nat) :
    row ∈ input_ids → row.length ≤ max_len input_ids := by
  unfold max_len
  induction input_ids with
  | nil =>
      intro h
      cases h
  | cons x xs ih =>
      intro h
      rw [List.map_cons, List.foldr_cons]
      rcases List.mem_cons.1 h with h | h
      · subst h
        exact le_max_left _ _
      · exact le_trans (ih h) (le_max_right _ _)

/-- A padded row has exactly the target length when the row fits. -/
theorem pad_row_length (row : List Nat) (m : Nat) (h : row.length ≤ m) :
    (pad_row row m).length = m := by
  unfold pad_row
  rw [List.length_append, List.length_replicate]
  omega

/-- Every position of the padding region holds id 0. -/
theorem pad_row_getElem?_pad (row : List Nat) (m j : Nat) (hj1 : row.length ≤ j)
    (hj2 : j < m) : (pad_row row m)[j]? = some 0 := by
  unfold pad_row
  rw [List.getElem?_append, if_neg (by omega), List.getElem?_replicate, if_pos (by omega)]

/-- C9: after the padding step, every row of `padded_input` has length
`max_len` (the maximum original token-id list length, padded with id 0), and
the corresponding `attention_mask` row holds 1 at exactly the positions where
the padded id is nonzero and 0 elsewhere; in particular every padding
position carries id 0 and is excluded by the attention mask. -/
theorem padding_and_attention_mask (input_ids : List (List Nat)) (row : List Nat)
    (h : row ∈ input_ids) :
    pad_row row (max_len input_ids) ∈ padded_input input_ids
    ∧ (pad_row row (max_len input_ids)).length = max_len input_ids
    ∧ (pad_row row (max_len input_ids)).map (fun x => if x ≠ 0 then 1 else 0)
        ∈ attention_mask (padded_input input_ids)
    ∧ (∀ j, j < max_len input_ids →
        ((pad_row row (max_len input_ids)).map (fun x => if x ≠ 0 then 1 else 0)).getD j 0
          = if (pad_row row (max_len input_ids)).getD j 0 ≠ 0 then 1 else 0)
    ∧ (∀ j, row.length ≤ j → j < max_len input_ids →
        (pad_row row (max_len input_ids)).getD j 1 = 0
        ∧ ((pad_row row (max_len input_ids)).map
            (fun x => if x ≠ 0 then 1 else 0)).getD j 1 = 0) := by
  have hle : row.length ≤ max_len input_ids := length_le_max_len input_ids row h
  have hlen : (pad_row row (max_len input_ids)).length = max_len input_ids :=
    pad_row_length row (max_len input_ids) hle
  refine ⟨List.mem_map_of_mem _ h, hlen, ?_, ?_, ?_⟩
  · unfold attention_mask
    exact List.mem_map_of_mem _ (List.mem_map_of_mem _ h)
  · intro j hj
    have hjl : j < (pad_row row (max_len input_ids)).length := by rw [hlen]; exact hj
    rw [List.getD_eq_getElem?_getD, List.getElem?_map,
      List.getElem?_eq_getElem hjl, List.getD_eq_getElem _ _ hjl]
    rfl
  · intro j hj1 hj2
    have hsome : (pad_row row (max_len input_ids))[j]? = some 0 :=
      pad_row_getElem?_pad row (max_len input_ids) j hj1 hj2
    constructor
    · rw [List.getD_eq_getElem?_getD, hsome]
      rfl
    · rw [List.getD_eq_getElem?_getD, List.getElem?_map, hsome]
      rfl

/-- Witness for C9 at a concrete list of token-id rows. -/
theorem padding_and_attention_mask_witness :
    ([5] : List Nat) ∈ ([[5], [3, 4]] : List (List Nat))
    ∧ (pad_row [5] (max_len [[5], [3, 4]]) ∈ padded_input [[5], [3, 4]]
      ∧ (pad_row [5] (max_len [[5], [3, 4]])).length = max_len [[5], [3, 4]]
      ∧ (pad_row [5] (max_len [[5], [3, 4]])).map (fun x => if x ≠ 0 then 1 else 0)
          ∈ attention_mask (padded_input [[5], [3, 4]])
      ∧ (∀ j, j < max_len [[5], [3, 4]] →
          ((pad_row [5] (max_len [[5], [3, 4]])).map
              (fun x => if x ≠ 0 then 1 else 0)).getD j 0
            = if (pad_row [5] (max_len [[5], [3, 4]])).getD j 0 ≠ 0 then 1 else 0)
      ∧ (∀ j, ([5] : List Nat).length ≤ j → j < max_len [[5], [3, 4]] →
          (pad_row [5] (max_len [[5], [3, 4]])).getD j 1 = 0
          ∧ ((pad_row [5] (max_len [[5], [3, 4]])).map
              (fun x => if x ≠ 0 then 1 else 0)).getD j 1 = 0)) :=
  ⟨by decide, padding_and_attention_mask [[5], [3, 4]] [5] (by decide)⟩

/-- Reading the freshly allocated reference yields the stored value. -/
theorem readRef_alloc_new (σ : PyState) (v : List String) :
    readRef (alloc σ v).1 (alloc σ v).2 = v := by
  unfold readRef alloc
  rw [List.getD_eq_getElem?_getD, List.getElem?_append_right (le_refl _)]
  simp

/-- Allocation does not disturb existing references. -/
theorem readRef_alloc_old (σ : PyState) (v : List String) (r : Nat)
    (hr : r < σ.heap.length) : readRef (alloc σ v).1 r = readRef σ r := by
  unfold readRef alloc
  rw [List.getD_eq_getElem?_getD, List.getD_eq_getElem?_getD, List.getElem?_append,
    if_pos hr]

/-- Writing one reference does not disturb a different reference. -/
theorem readRef_write_ne (σ : PyState) (q r : Nat) (v : List String) (h : q ≠ r) :
    readRef (writeRef σ q v) r = readRef σ r := by
  unfold readRef writeRef
  rw [List.getD_eq_getElem?_getD, List.getD_eq_getElem?_getD, List.getElem?_set_ne h]

/-- Reading back an in-bounds write yields the written value. -/
theorem readRef_write_eq (σ : PyState) (q : Nat) (v : List String)
    (h : q < σ.heap.length) : readRef (writeRef σ q v) q = v := by
  unfold readRef writeRef
  rw [List.getD_eq_getElem?_getD, List.getElem?_set_self h]
  rfl

/-- The fresh reference returned by `alloc` is in bounds of the new heap. -/
theorem alloc_ref_lt (σ : PyState) (v : List String) :
    (alloc σ v).2 < (alloc σ v).1.heap.length := by
  unfold alloc
  simp

/-- The fresh reference returned by `alloc` differs from every old one. -/
theorem alloc_ref_ne (σ : PyState) (v : List String) (r : Nat)
    (hr : r < σ.heap.length) : (alloc σ v).2 ≠ r := by
  unfold alloc
  omega

/-- C10: `get_directional_prob` returns a probability vector exactly when
the direction is `forward` or `backwards` — for every other direction it
exits (no return value) before evaluating the model — and in the valid cases
the caller's token list is left unmodified, since the masking is applied to
a fresh copy; the returned value agrees with the pure rendering
`get_directional_prob`. -/
theorem get_directional_prob_st_spec (B : BertOracle) (σ : PyState) (r i : Nat)
    (direction : String) (hr : r < σ.heap.length) :
    ((get_directional_prob_st B σ r i direction).1.isSome
        ↔ (direction = "forward" ∨ direction = "backwards"))
    ∧ readRef (get_directional_prob_st B σ r i direction).2 r = readRef σ r
    ∧ (get_directional_prob_st B σ r i direction).1
        = get_directional_prob B (readRef σ r) i direction := by
  by_cases hb : direction = "backwards"
  · subst hb
    simp only [get_directional_prob_st, if_pos rfl, readRef_alloc_new, if_true,
      eq_self_iff_true]
    rw [readRef_write_eq _ _ _ (alloc_ref_lt σ (readRef σ r)),
      readRef_write_ne _ _ _ _ (alloc_ref_ne σ (readRef σ r) r hr),
      readRef_alloc_old σ (readRef σ r) r hr]
    exact ⟨by simp, rfl, rfl⟩
  · by_cases hf : direction = "forward"
    · subst hf
      simp only [get_directional_prob_st, if_neg (by decide : ¬("forward" = "backwards")),
        if_pos rfl, readRef_alloc_new, if_true, eq_self_iff_true]
      rw [readRef_write_eq _ _ _ (alloc_ref_lt σ (readRef σ r)),
        readRef_write_ne _ _ _ _ (alloc_ref_ne σ (readRef σ r) r hr),
        readRef_alloc_old σ (readRef σ r) r hr]
      exact ⟨by simp, rfl, rfl⟩
    · simp only [get_directional_prob_st, if_neg hb, if_neg hf]
      rw [readRef_alloc_old σ (readRef σ r) r hr]
      refine ⟨by simp [hb, hf], rfl, ?_⟩
      unfold get_directional_prob maskTokens
      rw [if_neg hb, if_neg hf]
      rfl

/-- Witness for C10 at a concrete heap, reference and direction. -/
theorem get_directional_prob_st_spec_witness :
    0 < (PyState.mk [["[CLS]", "a", "[SEP]"]]).heap.length
    ∧ (((get_directional_prob_st trivialOracle (PyState.mk [["[CLS]", "a", "[SEP]"]])
          0 1 "forward").1.isSome
        ↔ (("forward" : String) = "forward" ∨ ("forward" : String) = "backwards"))
      ∧ readRef (get_directional_prob_st trivialOracle
          (PyState.mk [["[CLS]", "a", "[SEP]"]]) 0 1 "forward").2 0
          = readRef (PyState.mk [["[CLS]", "a", "[SEP]"]]) 0
      ∧ (get_directional_prob_st trivialOracle (PyState.mk [["[CLS]", "a", "[SEP]"]])
          0 1 "forward").1
          = get_directional_prob trivialOracle
              (readRef (PyState.mk [["[CLS]", "a", "[SEP]"]]) 0) 1 "forward") :=
  ⟨by decide,
   get_directional_prob_st_spec trivialOracle (PyState.mk [["[CLS]", "a", "[SEP]"]])
     0 1 "forward" (by decide)⟩

end Wordcat
